import Mathlib

/-!
Verification of the CDDIS IGS precise-ephemeris downloader (`main.py`).

The program is sequential glue over an FTP-TLS client:
`login` opens the connection, authenticates anonymously and upgrades the
data channel (`prot_p`); `main` changes into `gnss/products`, then for each
requested GNSS week enters the week directory, lists it, filters the names
with `fnmatch` against the fixed pattern `IGS0OPSFIN*ORB.SP3.gz`, retrieves
each match into a same-named local file, and returns to the parent
directory, all inside a per-week try/except; finally it quits the session.

This file gives a shallow embedding: filenames are lists of characters,
the pure matching code is translated directly, and the effectful driver is
translated into a trace-producing function where every fallible remote or
local operation is decided by an outcome oracle (`WeekEnv`).  Exceptions
are modelled by early exit (a `Bool` success flag threaded exactly where
Python control flow would propagate the exception), and the week-loop
`except` clause by the loop consuming that flag and continuing.
-/

namespace CDDIS

/-- A filename (or week identifier) as a sequence of characters. -/
abbrev Filename := List Char

/-- Shell-glob matching as used by Python `fnmatch.fnmatch` on a POSIX
host (`os.path.normcase` is the identity there, so matching is
case-sensitive): `*` matches any run of characters (the rest of the
pattern must match some suffix of the candidate), `?` matches exactly one
character, any other character matches itself.  Character classes
(`[seq]`) are not modelled: the single pattern this program ever passes,
`IGS0OPSFIN*ORB.SP3.gz`, contains none.  First argument is the pattern,
second the candidate name. -/
def globMatch : List Char → List Char → Bool
  | [], s => s.isEmpty
  | p :: ps, s =>
      if p = '*' then s.tails.any fun t => globMatch ps t
      else
        match s with
        | [] => false
        | c :: cs => (p == '?' || p == c) && globMatch ps cs

/-- `fnmatch.fnmatch(file, search_term)`: name first, pattern second. -/
def fnmatch (file : Filename) (search_term : Filename) : Bool :=
  globMatch search_term file

/-- The fixed search term `main.py` passes to `find_files`
(`download_week`, line 75): `IGS0OPSFIN*ORB.SP3.gz`. -/
def igsSearchTerm : Filename := "IGS0OPSFIN*ORB.SP3.gz".toList

/-- `find_files` (main.py:80-97), with the directory listing that
`ftps_server.nlst()` returns passed in as `all_files`: starts from an
empty accumulator and appends every listed file matching the search
term, in listing order. -/
def find_files (all_files : List Filename) (search_term : Filename) :
    List Filename :=
  all_files.foldl
    (fun files_found file =>
      if fnmatch file search_term then files_found ++ [file] else files_found)
    []

/-- Modelled from the spec's words (§4.3, §8): a name satisfies the fixed
pattern exactly when it starts with `IGS0OPSFIN` and ends with
`ORB.SP3.gz`, case-sensitively.  This is the comparison point for the
refinement claims about the matcher; `find_files` above is the code. -/
def matchesSpec (file : Filename) : Bool :=
  "IGS0OPSFIN".toList.isPrefixOf file && "ORB.SP3.gz".toList.isSuffixOf file

/-- The literal part of the fixed pattern before the `*`. -/
def preLit : List Char := "IGS0OPSFIN".toList

/-- The literal part of the fixed pattern after the `*`. -/
def sufLit : List Char := "ORB.SP3.gz".toList

/-- A pattern fragment containing no glob metacharacters. -/
def noWild (l : List Char) : Bool :=
  l.all fun c => !(c == '*' || c == '?')

theorem noWild_cons {a : Char} {l : List Char} (h : noWild (a :: l) = true) :
    a ≠ '*' ∧ a ≠ '?' ∧ noWild l = true := by
  simp only [noWild, List.all_cons, Bool.and_eq_true, Bool.not_eq_true',
    Bool.or_eq_false_iff, beq_eq_false_iff_ne, ne_eq] at h
  exact ⟨h.1.1, h.1.2, by simpa [noWild] using h.2⟩

theorem globMatch_nil (s : List Char) : globMatch [] s = s.isEmpty := rfl

theorem globMatch_cons_eq (p : Char) (ps s : List Char) :
    globMatch (p :: ps) s =
      if p = '*' then s.tails.any fun t => globMatch ps t
      else
        match s with
        | [] => false
        | c :: cs => (p == '?' || p == c) && globMatch ps cs := rfl

theorem globMatch_cons_of_ne_star {a : Char} (ha : a ≠ '*')
    (ps s : List Char) :
    globMatch (a :: ps) s =
      match s with
      | [] => false
      | c :: cs => (a == '?' || a == c) && globMatch ps cs := by
  rw [globMatch_cons_eq, if_neg ha]

theorem globMatch_star (ps s : List Char) :
    globMatch ('*' :: ps) s = s.tails.any fun t => globMatch ps t := by
  rw [globMatch_cons_eq, if_pos rfl]

theorem globMatch_lit_append :
    ∀ lit : List Char, noWild lit = true → ∀ ps s : List Char,
      (globMatch (lit ++ ps) s = true ↔
        ∃ s₂, s = lit ++ s₂ ∧ globMatch ps s₂ = true) := by
  intro lit
  induction lit with
  | nil =>
    intro _ ps s
    simp only [List.nil_append]
    exact ⟨fun h => ⟨s, rfl, h⟩, fun ⟨s₂, h, h₂⟩ => h ▸ h₂⟩
  | cons a lit ih =>
    intro hw ps s
    obtain ⟨ha1, ha2, hw'⟩ := noWild_cons hw
    cases s with
    | nil =>
      rw [List.cons_append, globMatch_cons_of_ne_star ha1]
      constructor
      · intro h
        cases h
      · rintro ⟨s₂, h, -⟩
        cases h
    | cons c cs =>
      rw [List.cons_append, globMatch_cons_of_ne_star ha1]
      rw [show (a == '?' : Bool) = false from beq_eq_false_iff_ne.2 ha2]
      simp only [Bool.false_or, Bool.and_eq_true, beq_iff_eq]
      constructor
      · rintro ⟨rfl, h⟩
        obtain ⟨s₂, rfl, h₂⟩ := (ih hw' ps cs).1 h
        exact ⟨s₂, rfl, h₂⟩
      · rintro ⟨s₂, h, h₂⟩
        injection h with h1 h2
        exact ⟨h1.symm, (ih hw' ps cs).2 ⟨s₂, h2, h₂⟩⟩

theorem globMatch_star_lit (lit : List Char) (s : List Char) :
    globMatch ('*' :: lit) s = true ↔
      ∃ t, t <:+ s ∧ globMatch lit t = true := by
  rw [globMatch_star, List.any_eq_true]
  constructor
  · rintro ⟨t, ht, h⟩
    exact ⟨t, (List.mem_tails t s).1 ht, h⟩
  · rintro ⟨t, ht, h⟩
    exact ⟨t, (List.mem_tails t s).2 ht, h⟩

theorem globMatch_lit (lit : List Char) (hw : noWild lit = true)
    (s : List Char) : globMatch lit s = true ↔ s = lit := by
  have h := globMatch_lit_append lit hw [] s
  rw [List.append_nil] at h
  rw [h]
  constructor
  · rintro ⟨s₂, rfl, h₂⟩
    rw [globMatch_nil] at h₂
    simp only [List.isEmpty_iff] at h₂
    simp [h₂]
  · rintro rfl
    exact ⟨[], by simp, rfl⟩

theorem igsSearchTerm_eq : igsSearchTerm = preLit ++ '*' :: sufLit := by
  decide

theorem noWild_preLit : noWild preLit = true := by decide

theorem noWild_sufLit : noWild sufLit = true := by decide

/-- The fixed pattern matches a name exactly when the name decomposes as
the literal head followed by anything ending in the literal tail. -/
theorem globMatch_igs_decomp (s : Filename) :
    globMatch igsSearchTerm s = true ↔
      ∃ s₂, s = preLit ++ s₂ ∧ sufLit <:+ s₂ := by
  rw [igsSearchTerm_eq, globMatch_lit_append preLit noWild_preLit]
  constructor
  · rintro ⟨s₂, rfl, h⟩
    obtain ⟨t, ht, h₂⟩ := (globMatch_star_lit sufLit s₂).1 h
    rw [globMatch_lit sufLit noWild_sufLit] at h₂
    exact ⟨s₂, rfl, h₂ ▸ ht⟩
  · rintro ⟨s₂, rfl, h⟩
    refine ⟨s₂, rfl, (globMatch_star_lit sufLit s₂).2 ⟨sufLit, h, ?_⟩⟩
    exact (globMatch_lit sufLit noWild_sufLit sufLit).2 rfl

theorem mem_preLit_drop : ∀ m : Fin 10, 'N' ∈ preLit.drop m.val := by decide

/-- For the fixed literals, the decomposition is equivalent to the pair
of an initial-segment and a final-segment condition: the two literals can
never overlap inside a candidate name, because the head literal ends in
`N` and the tail literal contains no `N`. -/
theorem decomp_iff_ends (s : Filename) :
    (∃ s₂, s = preLit ++ s₂ ∧ sufLit <:+ s₂) ↔
      preLit <+: s ∧ sufLit <:+ s := by
  constructor
  · rintro ⟨s₂, rfl, h⟩
    exact ⟨List.prefix_append preLit s₂,
      h.trans (List.suffix_append preLit s₂)⟩
  · rintro ⟨hpre, hsuf⟩
    obtain ⟨s₂, rfl⟩ := hpre
    refine ⟨s₂, rfl, ?_⟩
    by_cases hle : sufLit.length ≤ s₂.length
    · exact List.suffix_of_suffix_length_le hsuf
        (List.suffix_append preLit s₂) hle
    · exfalso
      obtain ⟨t, ht⟩ := hsuf
      have hpl : preLit.length = 10 := by decide
      have hsl : sufLit.length = 10 := by decide
      have hlen := congrArg List.length ht
      simp only [List.length_append] at hlen
      have htl : t.length = s₂.length := by omega
      have hd := congrArg (List.drop t.length) ht
      rw [List.drop_left] at hd
      rw [List.drop_append_eq_append_drop] at hd
      rw [show t.length - preLit.length = 0 by omega, List.drop_zero] at hd
      have hlt10 : t.length < 10 := by omega
      have hNmem : 'N' ∈ preLit.drop t.length :=
        mem_preLit_drop ⟨t.length, hlt10⟩
      have hNin : 'N' ∈ sufLit := by
        rw [hd]
        exact List.mem_append_left s₂ hNmem
      exact absurd hNin (by decide)

theorem matchesSpec_iff (s : Filename) :
    matchesSpec s = true ↔ preLit <+: s ∧ sufLit <:+ s := by
  rw [matchesSpec, Bool.and_eq_true, List.isPrefixOf_iff_prefix,
    List.isSuffixOf_iff_suffix]
  exact Iff.rfl

/-- The code's matcher agrees with the spec's description pointwise. -/
theorem globMatch_igs_eq_spec (s : Filename) :
    globMatch igsSearchTerm s = matchesSpec s := by
  have h1 := (globMatch_igs_decomp s).trans
    ((decomp_iff_ends s).trans (matchesSpec_iff s).symm)
  cases hg : globMatch igsSearchTerm s <;> cases hm : matchesSpec s
  · rfl
  · exact absurd (h1.2 hm) (by simp [hg])
  · exact absurd (h1.1 hg) (by simp [hm])
  · rfl

theorem foldl_append_filter (p : Filename → Bool) :
    ∀ (l acc : List Filename),
      l.foldl (fun files_found f =>
        if p f then files_found ++ [f] else files_found) acc =
        acc ++ l.filter p := by
  intro l
  induction l with
  | nil => intro acc; simp
  | cons x l ih =>
    intro acc
    by_cases hx : p x <;>
      simp [List.foldl_cons, List.filter_cons, hx, ih, List.append_assoc]

theorem find_files_eq_filter (files : List Filename) (st : Filename) :
    find_files files st = files.filter fun f => fnmatch f st := by
  rw [find_files, foldl_append_filter]
  simp

/-- `find_files` with the fixed search term computes exactly the
spec-described filter. -/
theorem find_files_igs (files : List Filename) :
    find_files files igsSearchTerm = files.filter matchesSpec := by
  rw [find_files_eq_filter]
  apply List.filter_congr
  intro f _
  exact globMatch_igs_eq_spec f

/-! ## Driver embedding

The effectful part of `main.py` is embedded as a trace semantics.  Every
session operation appends an `Event`; every fallible operation consults a
`WeekEnv` outcome oracle, and a raised exception is modelled by returning
the trace so far together with a `false` success flag, which the caller
propagates exactly where Python would propagate the exception.  Console
output (`print`, `spacer`, banners) and `sleep` have no observable effect
on the session or the filesystem and produce no events. -/

/-- Observable actions of one run: session-channel commands, local-file
actions, and the week-loop `except` clause firing. -/
inductive Event where
  | connect
  | loginCmd
  | protP
  | cwdProducts
  | enterWeek (week : Filename) (ok : Bool)
  | nlstCmd (ok : Bool)
  | openLocal (name : Filename)
  | retrCmd (name : Filename) (ok : Bool)
  | closeLocal (name : Filename)
  | leaveWeek
  | errorCaught (week : Filename)
  | quitCmd
  deriving DecidableEq

/-- Outcome oracle for one iteration of the week loop: whether `cwd` into
the week succeeds, what `nlst()` returns (`none` means it raises), whether
`open(name, "wb")` succeeds, whether `retrbinary` succeeds, and whether the
final `cwd("..")` succeeds. -/
structure WeekEnv where
  enterOk : Bool
  listing : Option (List Filename)
  openOk : Filename → Bool
  retrOk : Filename → Bool
  leaveOk : Bool

/-- `download_file` (main.py:99-111): `with open(file_name, "wb")` opens
the local file write-only, truncating or creating it, then `retrbinary`
streams the remote bytes into it; the `with` block closes the handle on
both the normal and the exceptional exit, after which a `retrbinary`
exception keeps propagating (success flag `false`).  If `open` itself
raises, no handle exists and no event is recorded. -/
def download_file (env : WeekEnv) (file_name : Filename) :
    List Event × Bool :=
  if env.openOk file_name then
    ([Event.openLocal file_name,
      Event.retrCmd file_name (env.retrOk file_name),
      Event.closeLocal file_name],
     env.retrOk file_name)
  else ([], false)

/-- The `for file in files_to_download` loop of `download_week`
(main.py:77-78): each file is retrieved in turn; an exception from
`download_file` aborts the rest of the loop and propagates. -/
def downloadLoop (env : WeekEnv) : List Filename → List Event × Bool
  | [] => ([], true)
  | f :: fs =>
    let r := download_file env f
    if r.2 then
      let r₂ := downloadLoop env fs
      (r.1 ++ r₂.1, r₂.2)
    else (r.1, false)

/-- `download_week` (main.py:67-78): list the current directory (`nlst`
inside `find_files`; a raise propagates), filter with the fixed search
term, then download each match in order. -/
def download_week (env : WeekEnv) : List Event × Bool :=
  match env.listing with
  | none => ([Event.nlstCmd false], false)
  | some all_files =>
    let r := downloadLoop env (find_files all_files igsSearchTerm)
    (Event.nlstCmd true :: r.1, r.2)

/-- The body of the `try` block of `main`'s week loop (main.py:134-140):
`cwd` into the week (a raise propagates at once), `download_week` (a raise
propagates, skipping the rest of the block), then `cwd("..")` back to the
parent.  Note the `cwd("..")` is the last statement of the `try` block,
so it only runs when everything before it succeeded. -/
def weekBody (env : WeekEnv) (week : Filename) : List Event × Bool :=
  if env.enterOk then
    let r := download_week env
    if r.2 then
      (Event.enterWeek week true :: r.1 ++ [Event.leaveWeek], env.leaveOk)
    else
      (Event.enterWeek week true :: r.1, false)
  else ([Event.enterWeek week false], false)

/-- One iteration of the week loop (main.py:133-147): the `except` clause
catches any exception from the body, prints the diagnostic and the
"week not found" message, and falls through to the next iteration. -/
def weekStep (run : Filename × WeekEnv) : List Event :=
  let r := weekBody run.2 run.1
  r.1 ++ (if r.2 then [] else [Event.errorCaught run.1])

/-- The whole week loop: one `weekStep` per requested week, in the order
supplied.  Each element pairs a week identifier with the outcome oracle
for that iteration. -/
def weekLoop : List (Filename × WeekEnv) → List Event
  | [] => []
  | run :: runs => weekStep run ++ weekLoop runs

/-- The events of `setup`/`login` (main.py:38-65) followed by the `cwd`
into `gnss/products` (main.py:124): connect, anonymous login, `prot_p`,
change to the products directory.  A failure in this startup phase aborts
the program before the week loop (the spec's fatal session-error kind)
and is outside the per-week oracle model. -/
def setupTrace : List Event :=
  [Event.connect, Event.loginCmd, Event.protP, Event.cwdProducts]

/-- `main` (main.py:117-151) after the interactive prompts: startup, the
week loop over the supplied identifiers, then `ftps.quit()`. -/
def mainTrace (runs : List (Filename × WeekEnv)) : List Event :=
  setupTrace ++ weekLoop runs ++ [Event.quitCmd]

/-! Trace observers. -/

/-- The week identifier of an enter-directory attempt, if any. -/
def Event.enterId : Event → Option Filename
  | .enterWeek w _ => some w
  | _ => none

/-- The filename of a retrieval command, if any. -/
def Event.retrName : Event → Option Filename
  | .retrCmd n _ => some n
  | _ => none

/-- The path of a local-file open, if any. -/
def Event.openName : Event → Option Filename
  | .openLocal n => some n
  | _ => none

/-- The path of a local-file close, if any. -/
def Event.closeName : Event → Option Filename
  | .closeLocal n => some n
  | _ => none

/-- Is this event an enter-week navigation attempt? -/
def Event.isEnter : Event → Bool
  | .enterWeek _ _ => true
  | _ => false

/-- Is this event the leave-to-parent navigation? -/
def Event.isLeave : Event → Bool
  | .leaveWeek => true
  | _ => false

/-- Is this event the session teardown? -/
def Event.isQuit : Event → Bool
  | .quitCmd => true
  | _ => false

/-- Is this event the data-channel encryption upgrade? -/
def Event.isProtP : Event → Bool
  | .protP => true
  | _ => false

/-- Is this event a data-channel operation (directory listing or binary
retrieval)? -/
def Event.isDataOp : Event → Bool
  | .nlstCmd _ => true
  | .retrCmd _ _ => true
  | _ => false

/-- The week identifiers of all enter attempts in a trace, in order. -/
def entersOf (tr : List Event) : List Filename :=
  tr.filterMap Event.enterId

/-- The filenames of all retrieval commands in a trace, in order. -/
def retrNames (tr : List Event) : List Filename :=
  tr.filterMap Event.retrName

/-- The paths of all local-file opens in a trace, in order. -/
def opensOf (tr : List Event) : List Filename :=
  tr.filterMap Event.openName

/-- The paths of all local-file closes in a trace, in order. -/
def closesOf (tr : List Event) : List Filename :=
  tr.filterMap Event.closeName

/-- The match set of one week's oracle: what `find_files` returns there,
or nothing when the listing itself fails. -/
def matchedOf (env : WeekEnv) : List Filename :=
  match env.listing with
  | none => []
  | some all_files => find_files all_files igsSearchTerm

/-- Did every step of this week's iteration that precedes the
`cwd("..")` succeed (directory entry, listing, every open and every
retrieval)?  Exactly then does the code reach the leave navigation. -/
def weekAllOk (env : WeekEnv) : Bool :=
  env.enterOk &&
    match env.listing with
    | none => false
    | some all_files =>
      (find_files all_files igsSearchTerm).all fun f =>
        env.openOk f && env.retrOk f

/-! ## Structural lemmas about the traces -/

theorem download_file_ok (env : WeekEnv) (f : Filename) :
    (download_file env f).2 = (env.openOk f && env.retrOk f) := by
  by_cases h : env.openOk f <;> simp [download_file, h]

theorem downloadLoop_ok (env : WeekEnv) :
    ∀ fs : List Filename,
      (downloadLoop env fs).2 = fs.all fun f => env.openOk f && env.retrOk f := by
  intro fs
  induction fs with
  | nil => rfl
  | cons f fs ih =>
    by_cases ho : env.openOk f <;> by_cases hr : env.retrOk f <;>
      simp [downloadLoop, download_file, ho, hr, ih]

theorem download_week_ok (env : WeekEnv) :
    (download_week env).2 =
      match env.listing with
      | none => false
      | some all_files =>
        (find_files all_files igsSearchTerm).all fun f =>
          env.openOk f && env.retrOk f := by
  cases hl : env.listing <;> simp [download_week, hl, downloadLoop_ok]

theorem retrNames_download_file (env : WeekEnv) (f : Filename) :
    retrNames (download_file env f).1 =
      if env.openOk f then [f] else [] := by
  by_cases h : env.openOk f <;>
    simp [download_file, retrNames, h, Event.retrName]

theorem opensOf_download_file (env : WeekEnv) (f : Filename) :
    opensOf (download_file env f).1 =
      if env.openOk f then [f] else [] := by
  by_cases h : env.openOk f <;>
    simp [download_file, opensOf, h, Event.openName]

theorem closesOf_download_file (env : WeekEnv) (f : Filename) :
    closesOf (download_file env f).1 =
      if env.openOk f then [f] else [] := by
  by_cases h : env.openOk f <;>
    simp [download_file, closesOf, h, Event.closeName]

theorem retrNames_downloadLoop (env : WeekEnv) :
    ∀ fs : List Filename, retrNames (downloadLoop env fs).1 <+: fs := by
  intro fs
  induction fs with
  | nil => simp [downloadLoop, retrNames]
  | cons f fs ih =>
    by_cases ho : env.openOk f
    · by_cases hr : env.retrOk f
      · simpa [downloadLoop, download_file, ho, hr, retrNames,
          Event.retrName, List.cons_prefix_cons] using ih
      · simp [downloadLoop, download_file, ho, hr, retrNames,
          Event.retrName, List.cons_prefix_cons]
    · simp [downloadLoop, download_file, ho, retrNames]

theorem opensOf_downloadLoop (env : WeekEnv) :
    ∀ fs : List Filename, opensOf (downloadLoop env fs).1 <+: fs := by
  intro fs
  induction fs with
  | nil => simp [downloadLoop, opensOf]
  | cons f fs ih =>
    by_cases ho : env.openOk f
    · by_cases hr : env.retrOk f
      · simpa [downloadLoop, download_file, ho, hr, opensOf,
          Event.openName, List.cons_prefix_cons] using ih
      · simp [downloadLoop, download_file, ho, hr, opensOf,
          Event.openName, List.cons_prefix_cons]
    · simp [downloadLoop, download_file, ho, opensOf]

theorem opens_eq_closes_downloadLoop (env : WeekEnv) :
    ∀ fs : List Filename,
      opensOf (downloadLoop env fs).1 = closesOf (downloadLoop env fs).1 := by
  intro fs
  induction fs with
  | nil => rfl
  | cons f fs ih =>
    have ih' := ih
    simp only [opensOf, closesOf] at ih'
    by_cases ho : env.openOk f <;> by_cases hr : env.retrOk f <;>
      simp [downloadLoop, download_file, ho, hr, opensOf, closesOf,
        Event.openName, Event.closeName, ih']

theorem entersOf_downloadLoop (env : WeekEnv) :
    ∀ fs : List Filename, entersOf (downloadLoop env fs).1 = [] := by
  intro fs
  induction fs with
  | nil => rfl
  | cons f fs ih =>
    have ih' := ih
    simp only [entersOf] at ih'
    by_cases ho : env.openOk f <;> by_cases hr : env.retrOk f <;>
      simp [downloadLoop, download_file, ho, hr, entersOf, Event.enterId, ih']

theorem countP_downloadLoop_of_not_fileOp (p : Event → Bool)
    (hopen : ∀ n, p (Event.openLocal n) = false)
    (hretr : ∀ n b, p (Event.retrCmd n b) = false)
    (hclose : ∀ n, p (Event.closeLocal n) = false)
    (env : WeekEnv) :
    ∀ fs : List Filename, (downloadLoop env fs).1.countP p = 0 := by
  intro fs
  induction fs with
  | nil => rfl
  | cons f fs ih =>
    by_cases ho : env.openOk f <;> by_cases hr : env.retrOk f <;>
      simp [downloadLoop, download_file, ho, hr, List.countP_cons,
        List.countP_append, hopen, hretr, hclose, ih]

theorem countP_leave_downloadLoop (env : WeekEnv) (fs : List Filename) :
    (downloadLoop env fs).1.countP Event.isLeave = 0 :=
  countP_downloadLoop_of_not_fileOp Event.isLeave
    (fun _ => rfl) (fun _ _ => rfl) (fun _ => rfl) env fs

theorem countP_quit_downloadLoop (env : WeekEnv) (fs : List Filename) :
    (downloadLoop env fs).1.countP Event.isQuit = 0 :=
  countP_downloadLoop_of_not_fileOp Event.isQuit
    (fun _ => rfl) (fun _ _ => rfl) (fun _ => rfl) env fs

theorem countP_protP_downloadLoop (env : WeekEnv) (fs : List Filename) :
    (downloadLoop env fs).1.countP Event.isProtP = 0 :=
  countP_downloadLoop_of_not_fileOp Event.isProtP
    (fun _ => rfl) (fun _ _ => rfl) (fun _ => rfl) env fs

theorem countP_enter_downloadLoop (env : WeekEnv) (fs : List Filename) :
    (downloadLoop env fs).1.countP Event.isEnter = 0 :=
  countP_downloadLoop_of_not_fileOp Event.isEnter
    (fun _ => rfl) (fun _ _ => rfl) (fun _ => rfl) env fs

theorem entersOf_download_week (env : WeekEnv) :
    entersOf (download_week env).1 = [] := by
  cases hl : env.listing with
  | none => simp [download_week, hl, entersOf, Event.enterId]
  | some all_files =>
    have h := entersOf_downloadLoop env (find_files all_files igsSearchTerm)
    simp only [entersOf] at h
    simp [download_week, hl, entersOf, Event.enterId, h]

theorem retrNames_download_week (env : WeekEnv) :
    retrNames (download_week env).1 <+: matchedOf env := by
  cases hl : env.listing with
  | none => simp [download_week, hl, retrNames, Event.retrName, matchedOf]
  | some all_files =>
    have h := retrNames_downloadLoop env (find_files all_files igsSearchTerm)
    simp only [retrNames] at h
    simpa [download_week, hl, retrNames, Event.retrName, matchedOf] using h

theorem opensOf_download_week (env : WeekEnv) :
    opensOf (download_week env).1 <+: matchedOf env := by
  cases hl : env.listing with
  | none => simp [download_week, hl, opensOf, Event.openName, matchedOf]
  | some all_files =>
    have h := opensOf_downloadLoop env (find_files all_files igsSearchTerm)
    simp only [opensOf] at h
    simpa [download_week, hl, opensOf, Event.openName, matchedOf] using h

theorem opens_eq_closes_download_week (env : WeekEnv) :
    opensOf (download_week env).1 = closesOf (download_week env).1 := by
  cases hl : env.listing with
  | none => simp [download_week, hl, opensOf, closesOf,
      Event.openName, Event.closeName]
  | some all_files =>
    have h := opens_eq_closes_downloadLoop env (find_files all_files igsSearchTerm)
    simp only [opensOf, closesOf] at h
    simp [download_week, hl, opensOf, closesOf, Event.openName,
      Event.closeName, h]

theorem countP_leave_download_week (env : WeekEnv) :
    (download_week env).1.countP Event.isLeave = 0 := by
  cases hl : env.listing with
  | none => simp [download_week, hl, List.countP_cons, Event.isLeave]
  | some all_files =>
    simp [download_week, hl, List.countP_cons, Event.isLeave,
      countP_leave_downloadLoop]

theorem countP_quit_download_week (env : WeekEnv) :
    (download_week env).1.countP Event.isQuit = 0 := by
  cases hl : env.listing with
  | none => simp [download_week, hl, List.countP_cons, Event.isQuit]
  | some all_files =>
    simp [download_week, hl, List.countP_cons, Event.isQuit,
      countP_quit_downloadLoop]

theorem countP_protP_download_week (env : WeekEnv) :
    (download_week env).1.countP Event.isProtP = 0 := by
  cases hl : env.listing with
  | none => simp [download_week, hl, List.countP_cons, Event.isProtP]
  | some all_files =>
    simp [download_week, hl, List.countP_cons, Event.isProtP,
      countP_protP_downloadLoop]

theorem countP_enter_download_week (env : WeekEnv) :
    (download_week env).1.countP Event.isEnter = 0 := by
  cases hl : env.listing with
  | none => simp [download_week, hl, List.countP_cons, Event.isEnter]
  | some all_files =>
    simp [download_week, hl, List.countP_cons, Event.isEnter,
      countP_enter_downloadLoop]

/-- The leave navigation is reached exactly when entry, listing and all
per-file downloads of the week succeeded. -/
theorem weekAllOk_eq (env : WeekEnv) :
    weekAllOk env = (env.enterOk && (download_week env).2) := by
  rw [weekAllOk, download_week_ok]

theorem entersOf_weekStep (run : Filename × WeekEnv) :
    entersOf (weekStep run) = [run.1] := by
  have h := entersOf_download_week run.2
  simp only [entersOf] at h
  by_cases he : run.2.enterOk
  · by_cases hd : (download_week run.2).2 <;>
      simp [weekStep, weekBody, he, hd, entersOf, Event.enterId, h]
  · simp [weekStep, weekBody, he, entersOf, Event.enterId]

theorem countP_enter_weekStep (run : Filename × WeekEnv) :
    (weekStep run).countP Event.isEnter = 1 := by
  have h := countP_enter_download_week run.2
  by_cases he : run.2.enterOk
  · by_cases hd : (download_week run.2).2 <;>
      simp [weekStep, weekBody, he, hd, List.countP_cons,
        List.countP_append, Event.isEnter, h]
  · simp [weekStep, weekBody, he, List.countP_cons, Event.isEnter]

theorem countP_leave_weekStep (run : Filename × WeekEnv) :
    (weekStep run).countP Event.isLeave =
      if weekAllOk run.2 then 1 else 0 := by
  rw [weekAllOk_eq]
  have h := countP_leave_download_week run.2
  by_cases he : run.2.enterOk
  · by_cases hd : (download_week run.2).2 <;>
      simp [weekStep, weekBody, he, hd, List.countP_cons,
        List.countP_append, Event.isLeave, h]
  · simp [weekStep, weekBody, he, List.countP_cons, Event.isLeave]

theorem countP_quit_weekStep (run : Filename × WeekEnv) :
    (weekStep run).countP Event.isQuit = 0 := by
  have h := countP_quit_download_week run.2
  by_cases he : run.2.enterOk
  · by_cases hd : (download_week run.2).2 <;>
      simp [weekStep, weekBody, he, hd, List.countP_cons,
        List.countP_append, Event.isQuit, h]
  · simp [weekStep, weekBody, he, List.countP_cons, Event.isQuit]

theorem countP_protP_weekStep (run : Filename × WeekEnv) :
    (weekStep run).countP Event.isProtP = 0 := by
  have h := countP_protP_download_week run.2
  by_cases he : run.2.enterOk
  · by_cases hd : (download_week run.2).2 <;>
      simp [weekStep, weekBody, he, hd, List.countP_cons,
        List.countP_append, Event.isProtP, h]
  · simp [weekStep, weekBody, he, List.countP_cons, Event.isProtP]

theorem filterMap_error_ite (f : Event → Option Filename)
    (hf : ∀ w, f (Event.errorCaught w) = none) (c : Bool) (w : Filename) :
    List.filterMap f (if c = true then [] else [Event.errorCaught w]) = [] := by
  cases c <;> simp [hf]

theorem retrNames_weekStep (run : Filename × WeekEnv) :
    retrNames (weekStep run) <+: matchedOf run.2 := by
  have h := retrNames_download_week run.2
  simp only [retrNames] at h
  by_cases he : run.2.enterOk
  · by_cases hd : (download_week run.2).2 <;>
      simpa [weekStep, weekBody, he, hd, retrNames, Event.retrName,
        filterMap_error_ite Event.retrName fun _ => rfl] using h
  · simp [weekStep, weekBody, he, retrNames, Event.retrName]

theorem opensOf_weekStep (run : Filename × WeekEnv) :
    opensOf (weekStep run) <+: matchedOf run.2 := by
  have h := opensOf_download_week run.2
  simp only [opensOf] at h
  by_cases he : run.2.enterOk
  · by_cases hd : (download_week run.2).2 <;>
      simpa [weekStep, weekBody, he, hd, opensOf, Event.openName,
        filterMap_error_ite Event.openName fun _ => rfl] using h
  · simp [weekStep, weekBody, he, opensOf, Event.openName]

theorem opens_eq_closes_weekStep (run : Filename × WeekEnv) :
    opensOf (weekStep run) = closesOf (weekStep run) := by
  have h := opens_eq_closes_download_week run.2
  simp only [opensOf, closesOf] at h
  by_cases he : run.2.enterOk
  · by_cases hd : (download_week run.2).2 <;>
      simp [weekStep, weekBody, he, hd, opensOf, closesOf,
        Event.openName, Event.closeName, h,
        filterMap_error_ite Event.openName fun _ => rfl,
        filterMap_error_ite Event.closeName fun _ => rfl]
  · simp [weekStep, weekBody, he, opensOf, closesOf,
      Event.openName, Event.closeName]

theorem weekLoop_append (rs₁ rs₂ : List (Filename × WeekEnv)) :
    weekLoop (rs₁ ++ rs₂) = weekLoop rs₁ ++ weekLoop rs₂ := by
  induction rs₁ with
  | nil => simp [weekLoop]
  | cons r rs ih => simp [weekLoop, ih]

theorem entersOf_weekLoop (runs : List (Filename × WeekEnv)) :
    entersOf (weekLoop runs) = runs.map Prod.fst := by
  induction runs with
  | nil => rfl
  | cons r rs ih =>
    have h := entersOf_weekStep r
    simp only [entersOf] at h ih
    simp [weekLoop, entersOf, h, ih]

theorem countP_enter_weekLoop (runs : List (Filename × WeekEnv)) :
    (weekLoop runs).countP Event.isEnter = runs.length := by
  induction runs with
  | nil => rfl
  | cons r rs ih =>
    simp [weekLoop, List.countP_append, countP_enter_weekStep, ih,
      Nat.add_comm]

theorem countP_leave_weekLoop (runs : List (Filename × WeekEnv)) :
    (weekLoop runs).countP Event.isLeave =
      runs.countP fun r => weekAllOk r.2 := by
  induction runs with
  | nil => rfl
  | cons r rs ih =>
    rw [weekLoop, List.countP_append, countP_leave_weekStep, ih,
      List.countP_cons]
    by_cases h : weekAllOk r.2 <;> simp [h, Nat.add_comm]

theorem countP_quit_weekLoop (runs : List (Filename × WeekEnv)) :
    (weekLoop runs).countP Event.isQuit = 0 := by
  induction runs with
  | nil => rfl
  | cons r rs ih =>
    simp [weekLoop, List.countP_append, countP_quit_weekStep, ih]

theorem countP_protP_weekLoop (runs : List (Filename × WeekEnv)) :
    (weekLoop runs).countP Event.isProtP = 0 := by
  induction runs with
  | nil => rfl
  | cons r rs ih =>
    simp [weekLoop, List.countP_append, countP_protP_weekStep, ih]

theorem opens_eq_closes_weekLoop (runs : List (Filename × WeekEnv)) :
    opensOf (weekLoop runs) = closesOf (weekLoop runs) := by
  induction runs with
  | nil => rfl
  | cons r rs ih =>
    have h := opens_eq_closes_weekStep r
    simp only [opensOf, closesOf] at h ih
    simp [weekLoop, opensOf, closesOf, h, ih]

theorem entersOf_mainTrace (runs : List (Filename × WeekEnv)) :
    entersOf (mainTrace runs) = runs.map Prod.fst := by
  have h := entersOf_weekLoop runs
  simp only [entersOf] at h
  simp [mainTrace, setupTrace, entersOf, List.filterMap_append, h,
    Event.enterId]

theorem countP_enter_mainTrace (runs : List (Filename × WeekEnv)) :
    (mainTrace runs).countP Event.isEnter = runs.length := by
  simp [mainTrace, setupTrace, List.countP_append, List.countP_cons,
    countP_enter_weekLoop, Event.isEnter]

theorem countP_leave_mainTrace (runs : List (Filename × WeekEnv)) :
    (mainTrace runs).countP Event.isLeave =
      runs.countP fun r => weekAllOk r.2 := by
  simp [mainTrace, setupTrace, List.countP_append, List.countP_cons,
    countP_leave_weekLoop, Event.isLeave]

theorem countP_quit_mainTrace (runs : List (Filename × WeekEnv)) :
    (mainTrace runs).countP Event.isQuit = 1 := by
  simp [mainTrace, setupTrace, List.countP_append, List.countP_cons,
    countP_quit_weekLoop, Event.isQuit]

theorem opens_eq_closes_mainTrace (runs : List (Filename × WeekEnv)) :
    opensOf (mainTrace runs) = closesOf (mainTrace runs) := by
  have h := opens_eq_closes_weekLoop runs
  simp only [opensOf, closesOf] at h
  simp [mainTrace, setupTrace, opensOf, closesOf, List.filterMap_append,
    h, Event.openName, Event.closeName]

/-! ## The claims -/

/-- A week-iteration oracle in which directory entry succeeds but the
listing call raises, as when the control connection drops after the
`cwd`. -/
def listingFailEnv : WeekEnv where
  enterOk := true
  listing := none
  openOk := fun _ => true
  retrOk := fun _ => true
  leaveOk := true

/-- C1, counterexample: on the week `2190` whose directory entry succeeds
but whose listing then fails, the run performs the enter navigation (with
success) and yet zero leave navigations: `cwd("..")` is the last statement
of the `try` block, so the exception raised by the listing skips it.  This
refutes "the leave executing even if matching or retrieval for that week
failed". -/
theorem c1_counterexample :
    Event.enterWeek "2190".toList true ∈
        mainTrace [("2190".toList, listingFailEnv)] ∧
      (mainTrace [("2190".toList, listingFailEnv)]).countP
        Event.isLeave = 0 := by
  decide

/-- C1 (amended): the driver performs the enter navigation exactly once
per supplied identifier, and performs the leave navigation exactly once
for each identifier whose enter, listing, and every per-file open and
retrieval succeeded; for an identifier whose enter fails — or whose
listing or retrieval fails after a successful enter — no leave is
performed. -/
theorem c1_enter_leave_pairing (runs : List (Filename × WeekEnv)) :
    (mainTrace runs).countP Event.isEnter = runs.length ∧
      (mainTrace runs).countP Event.isLeave =
        runs.countP fun r => weekAllOk r.2 :=
  ⟨countP_enter_mainTrace runs, countP_leave_mainTrace runs⟩

/-- C2: a failure while processing one week is absorbed at the week-loop
boundary and never prevents the remaining weeks from being processed:
whatever each iteration's outcome oracle says — entry, listing, open or
retrieval failure — every supplied identifier still gets its directory
entry attempt, in order, and the trace of any later segment of the week
list is exactly what it would have been on its own. -/
theorem c2_failure_isolation (runs : List (Filename × WeekEnv)) :
    entersOf (mainTrace runs) = runs.map Prod.fst ∧
      ∀ rs₁ rs₂ : List (Filename × WeekEnv),
        weekLoop (rs₁ ++ rs₂) = weekLoop rs₁ ++ weekLoop rs₂ :=
  ⟨entersOf_mainTrace runs, weekLoop_append⟩

/-- C3: filtering any listing against the fixed pattern returns exactly
the sublist of names that start with `IGS0OPSFIN` and end with
`ORB.SP3.gz`, in listing order; on the three-element scenario listing it
returns exactly the two `IGS0OPSFIN_...` entries. -/
theorem c3_matcher_exact :
    (∀ files : List Filename,
        find_files files igsSearchTerm = files.filter matchesSpec) ∧
      find_files
          ["IGS0OPSFIN_2024001.ORB.SP3.gz".toList, "README.txt".toList,
            "IGS0OPSFIN_2024002.ORB.SP3.gz".toList] igsSearchTerm =
        ["IGS0OPSFIN_2024001.ORB.SP3.gz".toList,
          "IGS0OPSFIN_2024002.ORB.SP3.gz".toList] :=
  ⟨find_files_igs, by decide⟩

/-- C4: every run that gets through startup closes the session exactly
once, by a quit that comes after the entire week loop, however many week
iterations failed. -/
theorem c4_quit_once (runs : List (Filename × WeekEnv)) :
    (mainTrace runs).countP Event.isQuit = 1 ∧
      mainTrace runs = (setupTrace ++ weekLoop runs) ++ [Event.quitCmd] :=
  ⟨countP_quit_mainTrace runs, by simp [mainTrace]⟩

/-- C5: weeks are processed strictly in the order supplied (the enter
attempts in the final trace are exactly the supplied identifiers, in
order), and within each week iteration the retrieval commands are issued
for an initial segment of the matched files, in listing order — no
reordering and no batching. -/
theorem c5_strict_order (runs : List (Filename × WeekEnv)) :
    entersOf (mainTrace runs) = runs.map Prod.fst ∧
      ∀ run : Filename × WeekEnv,
        retrNames (weekStep run) <+: matchedOf run.2 :=
  ⟨entersOf_mainTrace runs, retrNames_weekStep⟩

/-- C6: in every run the data channel is upgraded to encrypted mode
exactly once, and everything that precedes the upgrade in the trace is
the connect and the authentication — in particular no directory listing
and no binary retrieval happens before `prot_p`. -/
theorem c6_protp_first (runs : List (Filename × WeekEnv)) :
    (mainTrace runs).takeWhile (fun e => !e.isProtP) =
        [Event.connect, Event.loginCmd] ∧
      ((mainTrace runs).takeWhile (fun e => !e.isProtP)).countP
          Event.isDataOp = 0 ∧
      (mainTrace runs).countP Event.isProtP = 1 := by
  refine ⟨?_, ?_, ?_⟩
  · simp [mainTrace, setupTrace, List.takeWhile_cons, Event.isProtP]
  · simp [mainTrace, setupTrace, List.takeWhile_cons, Event.isProtP,
      List.countP_cons, Event.isDataOp]
  · simp [mainTrace, setupTrace, List.countP_append, List.countP_cons,
      countP_protP_weekLoop, Event.isProtP]

/-- C7: filtering against the fixed pattern is idempotent: running
`find_files` on its own output returns that output unchanged. -/
theorem c7_filter_idempotent (files : List Filename) :
    find_files (find_files files igsSearchTerm) igsSearchTerm =
      find_files files igsSearchTerm := by
  rw [find_files_igs, find_files_igs, List.filter_filter]
  simp

/-- C8: local file handles are balanced on every run — each path is
closed as many times as it is opened, whatever fails — and whenever the
open succeeds the handle is closed even when the retrieval itself fails
(the `with` block closes before the exception propagates). -/
theorem c8_handle_closed (runs : List (Filename × WeekEnv))
    (name : Filename) :
    (opensOf (mainTrace runs)).count name =
        (closesOf (mainTrace runs)).count name ∧
      ∀ env : WeekEnv, env.openOk name = true →
        (download_file env name).1 =
          [Event.openLocal name, Event.retrCmd name (env.retrOk name),
            Event.closeLocal name] := by
  constructor
  · rw [opens_eq_closes_mainTrace]
  · intro env h
    simp [download_file, h]

/-- Witness for C8 at a concrete run and filename, with a failing
retrieval: the handle-balancing and the open/retrieve/close shape hold
there. -/
theorem c8_handle_closed_witness :
    (opensOf (mainTrace [("2190".toList, listingFailEnv)])).count
          "a.gz".toList =
        (closesOf (mainTrace [("2190".toList, listingFailEnv)])).count
          "a.gz".toList ∧
      (download_file
            { enterOk := true, listing := some [], openOk := fun _ => true,
              retrOk := fun _ => false, leaveOk := true }
            "a.gz".toList).1 =
        [Event.openLocal "a.gz".toList, Event.retrCmd "a.gz".toList false,
          Event.closeLocal "a.gz".toList] := by
  have h := c8_handle_closed [("2190".toList, listingFailEnv)] "a.gz".toList
  exact ⟨h.1, h.2 _ rfl⟩

/-- C9: when a successfully obtained listing contains no name satisfying
the pattern, the matcher returns the empty list, the week performs zero
retrievals and opens zero local files, and the week body completes
without raising (its outcome is just that of the final `cwd("..")`). -/
theorem c9_no_match_no_error (env : WeekEnv) (w : Filename)
    (L : List Filename) (he : env.enterOk = true)
    (hl : env.listing = some L)
    (hm : ∀ f ∈ L, matchesSpec f = false) :
    find_files L igsSearchTerm = [] ∧
      retrNames (weekBody env w).1 = [] ∧
      opensOf (weekBody env w).1 = [] ∧
      (weekBody env w).2 = env.leaveOk := by
  have hff : find_files L igsSearchTerm = [] := by
    rw [find_files_igs, List.filter_eq_nil_iff]
    intro f hf
    simp [hm f hf]
  refine ⟨hff, ?_, ?_, ?_⟩ <;>
    simp [weekBody, download_week, he, hl, hff, downloadLoop, retrNames,
      opensOf, Event.retrName, Event.openName]

/-- Witness for C9: a listing holding only `README.txt`. -/
theorem c9_no_match_no_error_witness :
    find_files ["README.txt".toList] igsSearchTerm = [] ∧
      retrNames (weekBody
          { enterOk := true, listing := some ["README.txt".toList],
            openOk := fun _ => true, retrOk := fun _ => true,
            leaveOk := true } "2190".toList).1 = [] ∧
      opensOf (weekBody
          { enterOk := true, listing := some ["README.txt".toList],
            openOk := fun _ => true, retrOk := fun _ => true,
            leaveOk := true } "2190".toList).1 = [] ∧
      (weekBody
          { enterOk := true, listing := some ["README.txt".toList],
            openOk := fun _ => true, retrOk := fun _ => true,
            leaveOk := true } "2190".toList).2 =
        ({ enterOk := true, listing := some ["README.txt".toList],
            openOk := fun _ => true, retrOk := fun _ => true,
            leaveOk := true } : WeekEnv).leaveOk :=
  c9_no_match_no_error _ _ _ rfl rfl (by decide)

/-- C10: the retriever uses the matched remote name verbatim as the local
path — the path recorded by the open is exactly the argument string, with
no sanitization — and across a week iteration the opened local paths are
an initial segment of the matched remote names, so every local file
created is named exactly as listed remotely (path separators included,
since `Filename` is an arbitrary character sequence). -/
theorem c10_verbatim_local_path (env : WeekEnv) (name w : Filename) :
    opensOf (download_file env name).1 =
        (if env.openOk name then [name] else []) ∧
      opensOf (weekStep (w, env)) <+: matchedOf env :=
  ⟨opensOf_download_file env name, opensOf_weekStep (w, env)⟩

end CDDIS
